import Mathlib

/-!
Shallow embedding of src/py_style/models.py (classes Theme, Console,
ProgressBar, Table) and proofs about the embedded operations.

Python dictionaries are embedded as functions String → Option String
(none of the code iterates over a style dictionary, so only point lookup
and update matter).  Python int is embedded as Int, Python lists as Lean
lists, Python None (the Table empty marker) as Option.none, and raising
an exception as an Except error (or, for Table mutators, as an optional
error message returned next to the post-call state, since a Python
exception leaves any mutation already performed in place).
-/

namespace PyStyle

/-- Modelled from the spec: the module py_style/constants.py is not in the
sources; the spec says the exact ANSI escape codes are an external palette
out of scope, so `DEFAULT` (the neutral/reset code bound to the fixed
"default" style key) is an opaque, arbitrary string. -/
def DEFAULT : String := "\x1b[0m"

/-- Modelled from the spec: alignment token for centered text from the
missing constants module; only its identity (distinct from LEFT/RIGHT)
matters. -/
def CENTER : String := "center"

/-- Modelled from the spec: alignment token for left-aligned text. -/
def LEFT : String := "left"

/-- Modelled from the spec: alignment token for right-aligned text. -/
def RIGHT : String := "right"

/-- A Python dict with string keys and string values, embedded as a point
lookup function. -/
def Dict : Type := String → Option String

/-- Embedding of `m[k] = v` on a Python dict: point update. -/
def Dict.update (m : Dict) (k v : String) : Dict :=
  fun n => if n = k then some v else m n

/-- State of a `Theme` object: the four privileged name-mangled fields and
the `__styles` dict. -/
structure Theme where
  info : String
  warning : String
  error : String
  success : String
  styles : Dict

/-- Embedding of `Theme.__construct`: writes the `info`, `warning`, `success`, `error`
and `default` keys of `__styles` from the fields (in source order). -/
def Theme.construct (t : Theme) : Theme :=
  { t with styles :=
      ((((t.styles.update ("info") t.info).update
          ("warning") t.warning).update
          ("success") t.success).update
          ("error") t.error).update ("default") DEFAULT }

/-- Embedding of `Theme.__init__(info, warning, error, success, **styles)`: stores the
four fields and the extra styles dict, then calls `__construct`. -/
def Theme.init (info warning error success : String) (styles : Dict) : Theme :=
  Theme.construct { info := info, warning := warning, error := error,
                    success := success, styles := styles }

/-- Embedding of `Theme.get_style(target)`: `self.__styles[target]`; a missing key is a
Python `KeyError` carrying the key. -/
def Theme.get_style (t : Theme) (target : String) : Except String String :=
  match t.styles target with
  | some v => .ok v
  | none => .error target

/-- The `info` property setter: assigns the field, then `__construct`. -/
def Theme.set_info (t : Theme) (color : String) : Theme :=
  Theme.construct { t with info := color }

/-- The `warning` property setter: assigns the field, then `__construct`. -/
def Theme.set_warning (t : Theme) (color : String) : Theme :=
  Theme.construct { t with warning := color }

/-- The `error` property setter: assigns the field, then `__construct`. -/
def Theme.set_error (t : Theme) (color : String) : Theme :=
  Theme.construct { t with error := color }

/-- The `success` property setter: assigns the field only — unlike the
other three setters it does NOT call `__construct`, so `__styles` is left
untouched. -/
def Theme.set_success (t : Theme) (color : String) : Theme :=
  { t with success := color }

/-- The `styles` setter (bulk mutator): `self.__styles.update(objects)`
where `objects` are the keyword pairs; embedded as a left fold of point
updates (keyword arguments have pairwise distinct keys). -/
def Theme.set_styles (t : Theme) (objects : List (String × String)) : Theme :=
  { t with styles := objects.foldl (fun m kv => m.update kv.1 kv.2) t.styles }

/-- Python `" " * n` for an Int `n` (negative counts yield the empty
string, exactly as in Python). -/
def spacesInt (n : Int) : String :=
  String.mk (List.replicate n.toNat ' ')

/-- Python `s.lstrip(" ")`: drop leading space characters (only spaces,
not general whitespace). -/
def lstripSpaces (s : String) : String :=
  String.mk (s.data.dropWhile (fun c => c = ' '))

/-- Python `s.rstrip(" ")`: drop trailing space characters. -/
def rstripSpaces (s : String) : String :=
  String.mk ((s.data.reverse.dropWhile (fun c => c = ' ')).reverse)

/-- Embedding of `Console.__align_text(text, alignment)`.  The call
`get_terminal_size().columns` is an environment read, passed here as the
explicit parameter `width`; Python `len` is the character count and `//`
is floor division (`Int.fdiv`).  An invalid alignment token raises
`ValueError`, embedded as the error case. -/
def Console.align_text (width : Int) (text : String) (alignment : String) :
    Except String String :=
  if alignment = CENTER then
    let padding := (width - (text.length : Int)).fdiv 2
    .ok (spacesInt padding ++ text ++
         spacesInt (width - (text.length : Int) - padding))
  else if alignment = RIGHT then
    .ok (rstripSpaces (spacesInt (width - (text.length : Int)) ++ text))
  else if alignment = LEFT then
    .ok (lstripSpaces (text ++ spacesInt (width - (text.length : Int))))
  else
    .error alignment

/-- State of a `ProgressBar` object.  The `delay` field (a Python float
handed to `sleep`) has no effect on any value computed here and is kept
as an opaque rational. -/
structure ProgressBar where
  values : Int
  theme : Theme
  symbol : String
  delay : ℚ

/-- The body of the `for _ in range(values)` loop of `ProgressBar.run`,
by remaining iteration count: each iteration looks `style` up in the
theme (`get_style` is called inside the loop, once per iteration) and
emits the styled symbol; the returned list is the sequence of emitted
strings. -/
def ProgressBar.runAux (theme : Theme) (style symbol : String) :
    Nat → Except String (List String)
  | 0 => .ok []
  | n + 1 =>
    match theme.get_style style with
    | .error e => .error e
    | .ok code =>
      match ProgressBar.runAux theme style symbol n with
      | .error e => .error e
      | .ok rest => .ok ((code ++ symbol) :: rest)

set_option linter.unusedVariables false in
/-- Embedding of `ProgressBar.run(style, del_self)`: `range(values)` has
`max(values, 0)` iterations.  The trailing `del self` only unbinds the
local name and the sleeps are timing-only, so the observable behaviour is
the emitted sequence (or the first lookup error). -/
def ProgressBar.run (p : ProgressBar) (style : String) (del_self : Bool) :
    Except String (List String) :=
  ProgressBar.runAux p.theme style p.symbol p.values.toNat

/-- State of a `Table` object: the `__columns` and `__rows` counters are
Python ints, the grid is a list of rows, each cell `Option α` with `none`
for Python `None` (the empty marker). -/
structure Table (α : Type) where
  columns : Int
  rows : Int
  table : List (List (Option α))

/-- Embedding of `Table.__init__(columns)` (the Python default argument is 0). -/
def Table.init (α : Type) (columns : Int) : Table α :=
  { columns := columns, rows := 0, table := [] }

/-- Python sequence index resolution for a container of length `len`: a
negative index counts from the end; the result is the resolved
nonnegative position, or `none` for `IndexError`. -/
def pyIdx (len : Nat) (index : Int) : Option Nat :=
  let i := if index < 0 then index + (len : Int) else index
  if 0 ≤ i ∧ i < (len : Int) then some i.toNat else none

/-- Embedding of `Table.add_row(*objects)`: pad with `None` while shorter than
`columns`, then pop from the end while longer.  When `columns < 0` the
pop loop empties the list and then `objects.pop()` raises `IndexError`
(before any mutation of the table); otherwise the first
`columns` values are kept and padded with `None`, and the row is appended
with `rows += 1`.  The second component is the error, `none` on success. -/
def Table.add_row (t : Table α) (objects : List (Option α)) :
    Table α × Option String :=
  if t.columns < 0 then
    (t, some ("pop from empty list"))
  else
    let row := objects.take t.columns.toNat ++
      List.replicate (t.columns.toNat - objects.length) none
    ({ t with table := t.table ++ [row], rows := t.rows + 1 }, none)

/-- Embedding of `Table.del_row(index)`: `del self.__table[index]` then `rows -= 1`;
an out-of-range index raises before any mutation. -/
def Table.del_row (t : Table α) (index : Int) : Table α × Option String :=
  match pyIdx t.table.length index with
  | some i => ({ t with table := t.table.eraseIdx i, rows := t.rows - 1 }, none)
  | none => (t, some ("list index out of range"))

/-- Python `del row[index]` on a single row: `none` for `IndexError`. -/
def delAt (row : List β) (index : Int) : Option (List β) :=
  (pyIdx row.length index).map (fun i => row.eraseIdx i)

/-- The `for row in self.__table: del row[index]` loop of
`Table.del_column`: rows are processed front to back; on the first
failing row the exception propagates, leaving the rows already processed
mutated and the rest (including the failing row) untouched.  Returns the
resulting rows and whether the loop completed. -/
def Table.del_column_loop (index : Int) :
    List (List (Option α)) → List (List (Option α)) × Bool
  | [] => ([], true)
  | row :: rest =>
    match delAt row index with
    | none => (row :: rest, false)
    | some row2 =>
      let r := Table.del_column_loop index rest
      (row2 :: r.1, r.2)

/-- Embedding of `Table.del_column(index)`: run the deletion loop over all rows, then
`columns -= 1`; if the loop raises, `columns` is not decremented and the
partially mutated grid is left in place. -/
def Table.del_column (t : Table α) (index : Int) : Table α × Option String :=
  let r := Table.del_column_loop index t.table
  if r.2 then
    ({ t with table := r.1, columns := t.columns - 1 }, none)
  else
    ({ t with table := r.1 }, some ("list index out of range"))

/-- Embedding of `Table.add_column(placeholder)`: append `placeholder` to every row,
then `columns += 1`; never fails. -/
def Table.add_column (t : Table α) (placeholder : Option α) : Table α :=
  { t with table := t.table.map (fun row => row ++ [placeholder]),
           columns := t.columns + 1 }

/-- Embedding of `Table.get_column(row_index, column_index)`:
`self.__table[row_index][column_index]` with Python index resolution on
both axes. -/
def Table.get_column (t : Table α) (row_index column_index : Int) :
    Except String (Option α) :=
  match pyIdx t.table.length row_index with
  | none => .error ("list index out of range")
  | some i =>
    let row := t.table.getD i []
    match pyIdx row.length column_index with
    | none => .error ("list index out of range")
    | some j => .ok (row.getD j none)

/-- Embedding of `Table.set_column(info, row_index, column_index)`:
`self.__table[row_index][column_index] = info`; an out-of-range index on
either axis raises before any mutation. -/
def Table.set_column (t : Table α) (info : Option α)
    (row_index column_index : Int) : Table α × Option String :=
  match pyIdx t.table.length row_index with
  | none => (t, some ("list index out of range"))
  | some i =>
    let row := t.table.getD i []
    match pyIdx row.length column_index with
    | none => (t, some ("list assignment index out of range"))
    | some j =>
      ({ t with table := t.table.set i (row.set j info) }, none)

/-- Embedding of `Table.get_row(index)`: `self.__table[index]`. -/
def Table.get_row (t : Table α) (index : Int) :
    Except String (List (Option α)) :=
  match pyIdx t.table.length index with
  | none => .error ("list index out of range")
  | some i => .ok (t.table.getD i [])

/-- Python `str(cell) if cell is not None else ""` for string cells
(`str` on a string is the identity). -/
def cellStr : Option String → String
  | none => ""
  | some s => s

/-- Embedding of `Table.get_table()`: the accumulation loop
`return_str += "| " + " | ".join(...) + " |" + "\n"` over all rows. -/
def Table.get_table (t : Table String) : String :=
  t.table.foldl
    (fun return_str row =>
      return_str ++
        ("| " ++ String.intercalate (" | ") (row.map cellStr) ++ " |" ++ "\n"))
    ""

/-! Concrete objects used by witness theorems. -/

/-- The empty extra-styles dict (`Theme(...)` with no keyword styles). -/
def emptyStyles : Dict := fun _ => none

/-- A sample theme with opaque codes and no extra styles. -/
def sampleTheme : Theme := Theme.init ("I") "W" "E" "S" emptyStyles

/-! Lemmas about dict update folds (for the bulk `styles` setter). -/

/-- Folding point updates over pairs whose keys avoid `k` leaves the
lookup at `k` unchanged. -/
theorem Dict.foldl_update_not_mem (objects : List (String × String))
    (m : Dict) (k : String) (h : k ∉ objects.map Prod.fst) :
    objects.foldl (fun m kv => m.update kv.1 kv.2) m k = m k := by
  induction objects generalizing m with
  | nil => rfl
  | cons a rest ih =>
    simp only [List.map_cons, List.mem_cons, not_or] at h
    rw [List.foldl_cons, ih _ h.2]
    simp [Dict.update, h.1]

/-- Folding point updates over pairs with pairwise distinct keys makes
the lookup at a listed key return its listed value. -/
theorem Dict.foldl_update_mem (objects : List (String × String))
    (m : Dict) (k v : String) (hnd : (objects.map Prod.fst).Nodup)
    (hmem : (k, v) ∈ objects) :
    objects.foldl (fun m kv => m.update kv.1 kv.2) m k = some v := by
  induction objects generalizing m with
  | nil => cases hmem
  | cons a rest ih =>
    rw [List.map_cons, List.nodup_cons] at hnd
    rw [List.foldl_cons]
    rcases List.mem_cons.mp hmem with heq | hmem2
    · subst heq
      rw [Dict.foldl_update_not_mem rest _ k hnd.1]
      simp [Dict.update]
    · exact ih _ hnd.2 hmem2

/-- C1: for a registered style name, `get_style` returns the value most
recently set for it — via the dedicated setter for `info`/`warning`/
`error`, via the bulk `styles` setter for listed names — while the
dedicated `success` setter updates only the field and leaves the style
dict (hence `get_style "success"`) unchanged. -/
theorem C1_get_style_latest (t : Theme) (c : String)
    (objects : List (String × String)) (k v : String)
    (hnd : (objects.map Prod.fst).Nodup) (hmem : (k, v) ∈ objects) :
    (t.set_info c).get_style ("info") = .ok c ∧
    (t.set_warning c).get_style ("warning") = .ok c ∧
    (t.set_error c).get_style ("error") = .ok c ∧
    (t.set_styles objects).get_style k = .ok v ∧
    (t.set_success c).styles = t.styles ∧
    (t.set_success c).success = c ∧
    (t.set_success c).get_style ("success") = t.get_style ("success") := by
  refine ⟨?_, ?_, ?_, ?_, rfl, rfl, rfl⟩
  · simp [Theme.set_info, Theme.construct, Theme.get_style, Dict.update]
  · simp [Theme.set_warning, Theme.construct, Theme.get_style, Dict.update]
  · simp [Theme.set_error, Theme.construct, Theme.get_style, Dict.update]
  · simp [Theme.set_styles, Theme.get_style,
      Dict.foldl_update_mem objects t.styles k v hnd hmem]

/-- Witness for C1 at a concrete theme, color and pair list. -/
theorem C1_witness :
    (sampleTheme.set_info ("C")).get_style ("info") = .ok ("C") ∧
    (sampleTheme.set_warning ("C")).get_style ("warning") = .ok ("C") ∧
    (sampleTheme.set_error ("C")).get_style ("error") = .ok ("C") ∧
    (sampleTheme.set_styles [("bold", "B")]).get_style ("bold") = .ok ("B") ∧
    (sampleTheme.set_success ("C")).styles = sampleTheme.styles ∧
    (sampleTheme.set_success ("C")).success = "C" ∧
    (sampleTheme.set_success ("C")).get_style ("success") =
      sampleTheme.get_style ("success") :=
  C1_get_style_latest sampleTheme ("C") [("bold", "B")] "bold" "B"
    (by decide) (by decide)

/-- C3: the bulk `styles` setter merges every given name→code pair into
the style dict, overwriting on key collision, so `get_style` then returns
the new code for every merged name (for any prior theme state). -/
theorem C3_set_styles_merges (t : Theme) (objects : List (String × String))
    (k v : String) (hnd : (objects.map Prod.fst).Nodup)
    (hmem : (k, v) ∈ objects) :
    (t.set_styles objects).get_style k = .ok v := by
  simp [Theme.set_styles, Theme.get_style,
    Dict.foldl_update_mem objects t.styles k v hnd hmem]

/-- Witness for C3: overwrite the registered key "info" and add a fresh
key through one bulk call. -/
theorem C3_witness :
    (sampleTheme.set_styles [("info", "I2"), ("dim", "D")]).get_style
      ("info") = .ok ("I2") ∧
    (sampleTheme.set_styles [("info", "I2"), ("dim", "D")]).get_style
      ("dim") = .ok ("D") :=
  ⟨C3_set_styles_merges sampleTheme [("info", "I2"), ("dim", "D")] "info" "I2"
      (by decide) (by decide),
   C3_set_styles_merges sampleTheme [("info", "I2"), ("dim", "D")] "dim" "D"
      (by decide) (by decide)⟩

/-- C8: looking up an unregistered name fails with a lookup error
carrying the name; `get_style` is a pure read (its embedded type returns
no new theme), so the theme is unchanged by the failed call. -/
theorem C8_get_style_unregistered (t : Theme) (s : String)
    (h : t.styles s = none) : t.get_style s = .error s := by
  simp [Theme.get_style, h]

/-- Witness for C8 at a concrete theme and name. -/
theorem C8_witness : sampleTheme.get_style ("nope") = .error ("nope") :=
  C8_get_style_unregistered sampleTheme ("nope") (by decide)

/-! ProgressBar.run lemmas. -/

/-- With at least one iteration, the first in-loop lookup of an
unregistered style raises immediately. -/
theorem ProgressBar.runAux_unregistered (t : Theme) (style symbol : String)
    (h : t.styles style = none) (n : Nat) :
    ProgressBar.runAux t style symbol (n + 1) = .error style := by
  simp [ProgressBar.runAux, Theme.get_style, h]

/-- With a registered style, every iteration emits the styled symbol. -/
theorem ProgressBar.runAux_registered (t : Theme) (style symbol code : String)
    (h : t.styles style = some code) (n : Nat) :
    ProgressBar.runAux t style symbol n =
      .ok (List.replicate n (code ++ symbol)) := by
  induction n with
  | zero => rfl
  | succ m ih =>
    simp [ProgressBar.runAux, Theme.get_style, h, ih, List.replicate_succ]

/-- Counterexample to C2: with `values = 0` and an unregistered style,
`run` performs no lookup and succeeds (emitting nothing) instead of
failing with the lookup error the claim requires for every values count
including zero. -/
theorem C2_counterexample :
    sampleTheme.get_style ("nope") = .error ("nope") ∧
    ProgressBar.run
      { values := 0, theme := sampleTheme, symbol := "-", delay := 1 }
      "nope" false = .ok [] :=
  ⟨rfl, rfl⟩

/-- C2 as amended: `run` resolves the style inside the loop, once per
step; it fails with a lookup error iff the style is unregistered and
`values ≥ 1`; with `values ≤ 0` it emits nothing and succeeds regardless
of registration; with a registered style it emits `values` copies of the
styled symbol. -/
theorem C2_run_amended (p : ProgressBar) (style : String) (ds : Bool) :
    (p.theme.styles style = none → 1 ≤ p.values →
      p.run style ds = .error style) ∧
    (p.values ≤ 0 → p.run style ds = .ok []) ∧
    (∀ code, p.theme.styles style = some code →
      p.run style ds = .ok
        (List.replicate p.values.toNat (code ++ p.symbol))) := by
  refine ⟨?_, ?_, ?_⟩
  · intro h hv
    have hpos : 0 < p.values.toNat := by omega
    obtain ⟨n, hn⟩ := Nat.exists_eq_succ_of_ne_zero (Nat.pos_iff_ne_zero.mp hpos)
    unfold ProgressBar.run
    rw [hn]
    exact ProgressBar.runAux_unregistered p.theme style p.symbol h n
  · intro hv
    have h0 : p.values.toNat = 0 := by omega
    unfold ProgressBar.run
    rw [h0]
    rfl
  · intro code h
    exact ProgressBar.runAux_registered p.theme style p.symbol code h _

/-- Witness for the amended C2 at a concrete two-step bar with a
registered style, and at an unregistered style with one step. -/
theorem C2_witness :
    ProgressBar.run
      { values := 2, theme := sampleTheme, symbol := "-", delay := 1 }
      "info" false = .ok ["I-", "I-"] ∧
    ProgressBar.run
      { values := 1, theme := sampleTheme, symbol := "-", delay := 1 }
      "nope" false = .error ("nope") :=
  ⟨(C2_run_amended
      { values := 2, theme := sampleTheme, symbol := "-", delay := 1 }
      "info" false).2.2 "I" rfl,
   (C2_run_amended
      { values := 1, theme := sampleTheme, symbol := "-", delay := 1 }
      "nope" false).1 rfl (by decide)⟩

/-! Console alignment. -/

/-- Length of Python `" " * n`. -/
theorem spacesInt_length (n : Int) : (spacesInt n).length = n.toNat := by
  simp [spacesInt, String.length]

/-- C7: for text shorter than the terminal width, center alignment
returns a string of length exactly `width` made of `(width - len) // 2`
leading spaces, the text itself unchanged at that offset, and the
remaining spaces on the right. -/
theorem C7_center_alignment (width : Int) (text : String)
    (h : (text.length : Int) < width) :
    ∃ s, Console.align_text width text CENTER = .ok s ∧
      s = spacesInt ((width - (text.length : Int)).fdiv 2) ++ text ++
          spacesInt (width - (text.length : Int) -
            (width - (text.length : Int)).fdiv 2) ∧
      s.length = width.toNat := by
  refine ⟨_, ?_, rfl, ?_⟩
  · simp [Console.align_text]
  · have h2 : (width - (text.length : Int)).fdiv 2 =
        (width - (text.length : Int)) / 2 :=
      Int.fdiv_eq_ediv _ (by omega)
    simp only [String.length_append, spacesInt_length, h2]
    omega

/-- Witness for C7 at width 10 and a three-character text. -/
theorem C7_witness :
    ∃ s, Console.align_text 10 "abc" CENTER = .ok s ∧ s.length = 10 := by
  obtain ⟨s, h1, _, h3⟩ := C7_center_alignment 10 "abc" (by decide)
  exact ⟨s, h1, by rw [h3]; rfl⟩

/-! Table index resolution lemmas. -/

/-- Characterization of Python index resolution: it succeeds exactly on
the in-range resolved position. -/
theorem pyIdx_spec (len : Nat) (idx : Int) (i : Nat) :
    pyIdx len idx = some i ↔
      i < len ∧ (i : Int) = if idx < 0 then idx + (len : Int) else idx := by
  simp only [pyIdx]
  by_cases hneg : idx < 0
  · rw [if_pos hneg]
    by_cases hc : 0 ≤ idx + (len : Int) ∧ idx + (len : Int) < (len : Int)
    · rw [if_pos hc]
      simp only [Option.some.injEq]
      omega
    · rw [if_neg hc]
      exact iff_of_false (by simp) (by omega)
  · rw [if_neg hneg]
    by_cases hc : 0 ≤ idx ∧ idx < (len : Int)
    · rw [if_pos hc]
      simp only [Option.some.injEq]
      omega
    · rw [if_neg hc]
      exact iff_of_false (by simp) (by omega)

/-- A successfully resolved index is in range. -/
theorem pyIdx_some_lt {len : Nat} {idx : Int} {i : Nat}
    (h : pyIdx len idx = some i) : i < len :=
  ((pyIdx_spec len idx i).mp h).1

/-- A nonnegative index resolves to itself when in range. -/
theorem pyIdx_natCast (len n : Nat) (h : n < len) :
    pyIdx len (n : Int) = some n := by
  rw [pyIdx_spec]
  have hpos : ¬((n : Int) < 0) := by omega
  rw [if_neg hpos]
  exact ⟨h, rfl⟩

/-- C5: with a nonnegative column count, `add_row` succeeds and
`get_row` on the new row returns a row of length exactly `columns`:
the given values padded at the end with the empty marker when too few,
truncated to the first `columns` values when too many. -/
theorem C5_add_row_get_row (t : Table α) (vals : List (Option α))
    (h : 0 ≤ t.columns) :
    (t.add_row vals).2 = none ∧
    ∃ row, (t.add_row vals).1.get_row (t.table.length : Int) = .ok row ∧
      row.length = t.columns.toNat ∧
      (vals.length ≤ t.columns.toNat →
        row = vals ++ List.replicate (t.columns.toNat - vals.length) none) ∧
      (t.columns.toNat ≤ vals.length → row = vals.take t.columns.toNat) := by
  have hnc : ¬t.columns < 0 := not_lt.mpr h
  refine ⟨by simp [Table.add_row, hnc], ?_⟩
  refine ⟨vals.take t.columns.toNat ++
    List.replicate (t.columns.toNat - vals.length) none, ?_, ?_, ?_, ?_⟩
  · have hlen : ((t.add_row vals).1).table.length = t.table.length + 1 := by
      simp [Table.add_row, hnc]
    unfold Table.get_row
    rw [hlen, pyIdx_natCast _ _ (Nat.lt_succ_self _)]
    simp [Table.add_row, hnc, List.getD_eq_getElem?_getD,
      List.getElem?_concat_length]
  · simp only [List.length_append, List.length_take, List.length_replicate]
    omega
  · intro hle
    rw [List.take_of_length_le hle]
  · intro hge
    have h0 : t.columns.toNat - vals.length = 0 := by omega
    simp [h0]

/-- Witness for C5: a table with two columns and a single supplied
value; the row is padded to length two. -/
theorem C5_witness :
    ((Table.init String 2).add_row [some ("x")]).2 = none ∧
    ∃ row, (((Table.init String 2).add_row [some ("x")]).1).get_row 0 =
        .ok row ∧ row.length = 2 := by
  obtain ⟨h1, row, h2, h3, _, _⟩ :=
    C5_add_row_get_row (Table.init String 2) [some ("x")] (by decide)
  exact ⟨h1, row, h2, h3⟩

/-- C10: `del_column` on a table with no rows visits no row, so it
succeeds for every index (even wildly out of range) and still decrements
`columns`; repeated calls therefore drive `columns` negative. -/
theorem C10_del_column_no_rows (t : Table α) (i : Int) (h : t.table = []) :
    t.del_column i = ({ t with columns := t.columns - 1 }, none) := by
  obtain ⟨c, r, tbl⟩ := t
  simp only at h
  subst h
  rfl

/-- Witness for C10: two deletions on a fresh zero-column table leave
`columns = -2`. -/
theorem C10_witness :
    ((Table.init String 0).del_column 5).2 = none ∧
    ((((Table.init String 0).del_column 5).1).del_column (-7)).1.columns
      = -2 := by
  have h1 := C10_del_column_no_rows (Table.init String 0) 5 rfl
  exact ⟨by rw [h1], by rfl⟩

/-- C9: a successful `set_column(v, r, c)` makes `get_column(r, c)`
return `v`, and every cell at any other (resolved) position is exactly
what it was before the set. -/
theorem C9_set_column_roundtrip (t : Table α) (v : Option α) (r c : Int)
    (t2 : Table α) (h : t.set_column v r c = (t2, none)) :
    t2.get_column r c = .ok v ∧
    ∃ i j, pyIdx t.table.length r = some i ∧
      pyIdx (t.table.getD i []).length c = some j ∧
      ∀ i2 j2 : Nat, i2 ≠ i ∨ j2 ≠ j →
        (t2.table.getD i2 []).getD j2 none =
          (t.table.getD i2 []).getD j2 none := by
  unfold Table.set_column at h
  cases hpi : pyIdx t.table.length r with
  | none => rw [hpi] at h; cases h
  | some i =>
    rw [hpi] at h
    simp only at h
    cases hpj : pyIdx (t.table.getD i []).length c with
    | none => rw [hpj] at h; cases h
    | some j =>
      rw [hpj] at h
      simp only [Prod.mk.injEq] at h
      have ht2 : t2 = { t with
          table := t.table.set i ((t.table.getD i []).set j v) } := h.1.symm
      subst ht2
      have hi : i < t.table.length := pyIdx_some_lt hpi
      have hj : j < (t.table.getD i []).length := pyIdx_some_lt hpj
      have hrow : (t.table.set i ((t.table.getD i []).set j v)).getD i [] =
          (t.table.getD i []).set j v := by
        simp [List.getD_eq_getElem?_getD, List.getElem?_set_self hi]
      constructor
      · unfold Table.get_column
        simp only [List.length_set]
        rw [hpi]
        simp only
        rw [hrow, List.length_set, hpj]
        simp only
        rw [List.getD_eq_getElem?_getD ((t.table.getD i []).set j v) j none,
          List.getElem?_set_self hj]
        rfl
      · refine ⟨i, j, rfl, hpj, ?_⟩
        intro i2 j2 hne
        by_cases hii : i2 = i
        · subst hii
          rcases hne with hne | hne
          · exact absurd rfl hne
          · rw [hrow]
            simp [List.getD_eq_getElem?_getD,
              List.getElem?_set_ne (Ne.symm hne)]
        · have : (t.table.set i ((t.table.getD i []).set j v)).getD i2 [] =
              t.table.getD i2 [] := by
            simp [List.getD_eq_getElem?_getD,
              List.getElem?_set_ne (fun he => hii he.symm)]
          rw [this]

/-- Witness for C9 on a concrete one-row table. -/
theorem C9_witness :
    ((((Table.init String 2).add_row [some ("a"), some ("b")]).1).set_column
        (some ("z")) 0 1).1.get_column 0 1 = .ok (some ("z")) :=
  (C9_set_column_roundtrip
    (((Table.init String 2).add_row [some ("a"), some ("b")]).1)
    (some ("z")) 0 1 _ rfl).1

/-- The `get_table` accumulation loop always leaves a trailing newline
when at least one row was rendered. -/
theorem get_table_loop_trailing_newline :
    ∀ (rows : List (List (Option String))) (acc : String), rows ≠ [] →
      ∃ s, rows.foldl
        (fun return_str row =>
          return_str ++
            ("| " ++ String.intercalate (" | ") (row.map cellStr) ++ " |" ++
              "\n")) acc = s ++ "\n" := by
  intro rows
  induction rows with
  | nil => intro acc hne; exact absurd rfl hne
  | cons row rest ih =>
    intro acc _
    rw [List.foldl_cons]
    by_cases hr : rest = []
    · subst hr
      refine ⟨acc ++ ("| " ++ String.intercalate (" | ") (row.map cellStr) ++
        " |"), ?_⟩
      simp [String.append_assoc]
    · exact ih _ hr

/-- C6: `get_table` renders each row as a pipe-delimited line (empty
marker as blank cell) with a trailing newline after every row including
the last; on `Table(2)` after `add_row("a","b")` and `add_row("x")` the
second row is `["x", empty]` and the rendering is exactly
`"| a | b |\n| x |  |\n"`. -/
theorem C6_get_table_rendering :
    ((((Table.init String 2).add_row [some ("a"), some ("b")]).1).add_row
        [some ("x")]).1.get_row 1 = .ok [some ("x"), none] ∧
    ((((Table.init String 2).add_row [some ("a"), some ("b")]).1).add_row
        [some ("x")]).1.get_table = "| a | b |\n| x |  |\n" ∧
    ∀ u : Table String, u.table ≠ [] → ∃ s, u.get_table = s ++ "\n" := by
  refine ⟨by rfl, by rfl, ?_⟩
  intro u hu
  unfold Table.get_table
  exact get_table_loop_trailing_newline u.table ("") hu

/-- Witness for the universally quantified part of C6 at a concrete
nonempty table. -/
theorem C6_witness :
    ∃ s, (((Table.init String 2).add_row [some ("a"), some ("b")]).1).get_table
      = s ++ "\n" :=
  C6_get_table_rendering.2.2
    (((Table.init String 2).add_row [some ("a"), some ("b")]).1) (by decide)

/-! The Table representation invariant and its preservation. -/

/-- The spec's Table invariant: every row's length equals `columns`, and
the `rows` counter equals the number of row entries. -/
def Table.inv (t : Table α) : Prop :=
  (∀ row ∈ t.table, (row.length : Int) = t.columns) ∧
  t.rows = (t.table.length : Int)

/-- One Table mutator call (successful or raising), relating the state
before the call to the state after it. -/
inductive Table.Step : Table α → Table α → Prop
  | add_row (t : Table α) (objects : List (Option α)) :
      Table.Step t (t.add_row objects).1
  | del_row (t : Table α) (index : Int) :
      Table.Step t (t.del_row index).1
  | add_column (t : Table α) (placeholder : Option α) :
      Table.Step t (t.add_column placeholder)
  | del_column (t : Table α) (index : Int) :
      Table.Step t (t.del_column index).1
  | set_column (t : Table α) (info : Option α) (r c : Int) :
      Table.Step t (t.set_column info r c).1

/-- States reachable from a fresh `Table(c)` by any sequence of mutator
calls. -/
inductive Table.Reachable (c : Int) : Table α → Prop
  | init : Table.Reachable c (Table.init α c)
  | step {t t2 : Table α} : Table.Reachable c t → Table.Step t t2 →
      Table.Reachable c t2

/-- The operation `add_row` preserves the invariant (in both the raising and the
appending branch). -/
theorem Table.inv_add_row (t : Table α) (h : t.inv)
    (objects : List (Option α)) : ((t.add_row objects).1).inv := by
  unfold Table.add_row
  by_cases hc : t.columns < 0
  · simpa [hc] using h
  · simp only [hc, if_neg, not_false_iff]
    constructor
    · intro row hrow
      rcases List.mem_append.mp hrow with h1 | h2
      · exact h.1 row h1
      · have hr : row = objects.take t.columns.toNat ++
            List.replicate (t.columns.toNat - objects.length) none := by
          simpa using h2
        subst hr
        simp only [List.length_append, List.length_take,
          List.length_replicate]
        omega
    · simp only [List.length_append, List.length_cons, List.length_nil]
      rw [h.2]
      push_cast
      omega

/-- The operation `del_row` preserves the invariant. -/
theorem Table.inv_del_row (t : Table α) (h : t.inv) (index : Int) :
    ((t.del_row index).1).inv := by
  unfold Table.del_row
  cases hpi : pyIdx t.table.length index with
  | none => exact h
  | some i =>
    have hi : i < t.table.length := pyIdx_some_lt hpi
    constructor
    · intro row hrow
      obtain ⟨k, -, hk⟩ := List.mem_eraseIdx_iff_getElem?.mp hrow
      exact h.1 row (List.getElem?_mem hk)
    · simp only [List.length_eraseIdx, hi, if_pos]
      rw [h.2]
      omega

/-- The operation `add_column` preserves the invariant. -/
theorem Table.inv_add_column (t : Table α) (h : t.inv)
    (placeholder : Option α) : (t.add_column placeholder).inv := by
  constructor
  · intro row hrow
    obtain ⟨r0, hr0, hmap⟩ := List.mem_map.mp hrow
    have := h.1 r0 hr0
    subst hmap
    simp only [Table.add_column, List.length_append, List.length_cons,
      List.length_nil]
    omega
  · simp only [Table.add_column, List.length_map]
    exact h.2

/-- When the per-row index is invalid for the common row length, the
deletion loop raises at the first row, mutating nothing. -/
theorem Table.del_column_loop_of_fail (index : Int) (L : Nat)
    (hfail : pyIdx L index = none) (rows : List (List (Option α)))
    (hall : ∀ row ∈ rows, row.length = L) (hne : rows ≠ []) :
    Table.del_column_loop index rows = (rows, false) := by
  cases rows with
  | nil => exact absurd rfl hne
  | cons row rest =>
    have hL : row.length = L := hall row (List.mem_cons_self row rest)
    unfold Table.del_column_loop
    simp [delAt, hL, hfail]

/-- When the per-row index resolves for the common row length, the
deletion loop succeeds and removes the resolved cell from every row. -/
theorem Table.del_column_loop_of_ok (index : Int) (L j : Nat)
    (hok : pyIdx L index = some j) :
    ∀ rows : List (List (Option α)), (∀ row ∈ rows, row.length = L) →
      Table.del_column_loop index rows =
        (rows.map (fun row => row.eraseIdx j), true) := by
  intro rows
  induction rows with
  | nil => intro _; rfl
  | cons row rest ih =>
    intro hall
    have hL : row.length = L := hall row (List.mem_cons_self row rest)
    have hrest : ∀ r0 ∈ rest, r0.length = L :=
      fun r0 hr0 => hall r0 (List.mem_cons_of_mem row hr0)
    unfold Table.del_column_loop
    simp [delAt, hL, hok, ih hrest]

/-- The operation `del_column` preserves the invariant. -/
theorem Table.inv_del_column (t : Table α) (h : t.inv) (index : Int) :
    ((t.del_column index).1).inv := by
  by_cases hrows : t.table = []
  · refine ⟨?_, ?_⟩
    · intro row hrow
      rw [Table.del_column, hrows] at hrow
      simp [Table.del_column_loop] at hrow
    · have : ((t.del_column index).1).table = [] := by
        rw [Table.del_column, hrows]
        rfl
      rw [this]
      have h0 : t.table.length = 0 := by rw [hrows]; rfl
      have := h.2
      rw [h0] at this
      rw [Table.del_column, hrows]
      simpa [Table.del_column_loop] using this
  · obtain ⟨row0, rest, hsplit⟩ := List.exists_cons_of_ne_nil hrows
    have hL0 : (row0.length : Int) = t.columns := by
      apply h.1
      rw [hsplit]
      exact List.mem_cons_self row0 rest
    have hall : ∀ row ∈ t.table, row.length = row0.length := by
      intro row hrow
      have := h.1 row hrow
      omega
    cases hres : pyIdx row0.length index with
    | none =>
      have hloop := Table.del_column_loop_of_fail index row0.length hres
        t.table hall hrows
      unfold Table.del_column
      rw [hloop]
      exact h
    | some j =>
      have hj : j < row0.length := pyIdx_some_lt hres
      have hloop := Table.del_column_loop_of_ok index row0.length j hres
        t.table hall
      simp only [Table.del_column, hloop, if_true]
      refine ⟨?_, ?_⟩
      · intro row hrow
        obtain ⟨r0, hr0, hmap⟩ := List.mem_map.mp hrow
        have hr0L : r0.length = row0.length := hall r0 hr0
        subst hmap
        simp only [List.length_eraseIdx, hr0L, hj, if_pos]
        omega
      · simp only [List.length_map]
        exact h.2

/-- The operation `set_column` preserves the invariant. -/
theorem Table.inv_set_column (t : Table α) (h : t.inv) (info : Option α)
    (r c : Int) : ((t.set_column info r c).1).inv := by
  unfold Table.set_column
  cases hpi : pyIdx t.table.length r with
  | none => exact h
  | some i =>
    simp only
    cases hpj : pyIdx (t.table.getD i []).length c with
    | none => exact h
    | some j =>
      have hi : i < t.table.length := pyIdx_some_lt hpi
      have hmem : t.table.getD i [] ∈ t.table := by
        rw [List.getD_eq_getElem?_getD, List.getElem?_eq_getElem hi]
        exact List.getElem_mem hi
      refine ⟨?_, ?_⟩
      · intro row hrow
        rcases List.mem_or_eq_of_mem_set hrow with h1 | h2
        · exact h.1 row h1
        · subst h2
          rw [List.length_set]
          exact h.1 _ hmem
      · simp only [List.length_set]
        exact h.2

/-- Every mutator call preserves the invariant. -/
theorem Table.inv_step {t t2 : Table α} (hs : Table.Step t t2)
    (h : t.inv) : t2.inv := by
  cases hs with
  | add_row objects => exact Table.inv_add_row _ h objects
  | del_row index => exact Table.inv_del_row _ h index
  | add_column placeholder => exact Table.inv_add_column _ h placeholder
  | del_column index => exact Table.inv_del_column _ h index
  | set_column info r c => exact Table.inv_set_column _ h info r c

/-- The invariant holds in every reachable state. -/
theorem Table.reachable_inv {c : Int} {t : Table α}
    (h : Table.Reachable c t) : t.inv := by
  induction h with
  | init => exact ⟨(fun row hrow => nomatch hrow), rfl⟩
  | step _ hs ih => exact Table.inv_step hs ih

/-- C4: in every state reachable from a fresh table by mutator calls,
every row's length equals the current `columns`, the `rows` counter
equals the number of row entries, `add_row`/`del_row` leave `columns`
unchanged, `add_column` resizes every existing row, and a successful
`del_column` leaves every row at length `columns - 1`. -/
theorem C4_table_invariants (c : Int) (t : Table α)
    (h : Table.Reachable c t) :
    (∀ row ∈ t.table, (row.length : Int) = t.columns) ∧
    t.rows = (t.table.length : Int) ∧
    (∀ objects, ((t.add_row objects).1).columns = t.columns) ∧
    (∀ i, ((t.del_row i).1).columns = t.columns) ∧
    (∀ p, (t.add_column p).table = t.table.map (fun row => row ++ [p])) ∧
    (∀ i, (t.del_column i).2 = none →
      ∀ row ∈ ((t.del_column i).1).table,
        (row.length : Int) = t.columns - 1) := by
  have hinv := Table.reachable_inv h
  refine ⟨hinv.1, hinv.2, ?_, ?_, ?_, ?_⟩
  · intro objects
    unfold Table.add_row
    by_cases hc : t.columns < 0 <;> simp [hc]
  · intro i
    unfold Table.del_row
    cases hpi : pyIdx t.table.length i with
    | none => rfl
    | some k => rfl
  · intro p
    rfl
  · intro i hsucc row hrow
    have hinv2 := Table.inv_del_column t hinv i
    have hcol : ((t.del_column i).1).columns = t.columns - 1 := by
      simp only [Table.del_column] at hsucc ⊢
      cases hb : (Table.del_column_loop i t.table).2 with
      | true => simp [hb]
      | false => rw [hb] at hsucc; simp at hsucc
    have hrlen := hinv2.1 row hrow
    rw [hcol] at hrlen
    exact hrlen

/-- Witness for C4 at a concrete reachable state (one `add_row` on a
fresh two-column table). -/
theorem C4_witness :
    (∀ row ∈ (((Table.init String 2).add_row [some ("a")]).1).table,
      (row.length : Int) =
        (((Table.init String 2).add_row [some ("a")]).1).columns) ∧
    (((Table.init String 2).add_row [some ("a")]).1).rows =
      ((((Table.init String 2).add_row [some ("a")]).1).table.length : Int) := by
  have h := C4_table_invariants 2 (((Table.init String 2).add_row
      [some ("a")]).1)
    (Table.Reachable.step Table.Reachable.init (Table.Step.add_row _ _))
  exact ⟨h.1, h.2.1⟩

end PyStyle
